import Mathlib

/-!
# Verification of the citation-dashboard aggregation engine

A shallow embedding of the client-side data-join and aggregation layer of the
LLM–Psychology citation dashboard (`useVisualizationData` hook, `dataLoader`
utilities, and the `Dashboard` selection state), together with proofs of the
specified properties.

JavaScript objects iterated with `Object.entries` are modelled as association
lists (iteration order = list order); `Set` membership is list membership;
`Map` built with `set` (last write wins) is looked up accordingly.  Strings
are Lean `String`s (the data is ASCII, so JS UTF-16 code-unit operations and
Lean character operations agree).
-/

namespace CitationDashboard

/-- A document entry of a cluster (`docs` array element). -/
structure Doc where
  title : String
  paperId : String
  abstract : Option String
deriving Repr, DecidableEq

/-- An LLM or Psychology topic cluster. -/
structure Cluster where
  size : Nat
  topic : String
  docs : List Doc
deriving Repr, DecidableEq

/-- A theory-pool entry: precomputed citation count and document titles. -/
structure TheoryData where
  citation : Nat
  docs : List String
deriving Repr, DecidableEq

/-- A secondary (sub-)cluster: label and list of theory names. -/
structure SecondaryCluster where
  size : Nat
  topic : String
  theories : List String
  docs : List Doc
deriving Repr, DecidableEq

/-- A paper-metadata record (`papersInfo` element): optional publication
date string and optional arXiv identifier URL. -/
structure PaperInfo where
  paperId : String
  publicationDate : Option String
  arxivUrl : Option String
deriving Repr, DecidableEq

/-- A filtered paper with its reference list (each reference contributing its
`paperId`); `none` models an absent `references` field. -/
structure PaperWithRefs where
  paperId : String
  references : Option (List String)
deriving Repr, DecidableEq

/-- The loaded state of the visualization hook: the five relations plus the
derived title→paperId map (built once from the refs-info relation). -/
structure VizState where
  llmClusters : List (String × Cluster)
  psychClusters : List (String × Cluster)
  theoryPool : List (String × List (String × TheoryData))
  secondaryClusters : List (String × List (String × SecondaryCluster))
  papersInfo : List PaperInfo
  filteredPapers : List PaperWithRefs
  titleToPaperId : List (String × String)
deriving Repr, DecidableEq

/-- JS object property access `obj[key]` on an association list. -/
def lookupAssoc {α : Type} (l : List (String × α)) (k : String) : Option α :=
  (l.find? (fun p => decide (p.1 = k))).map (·.2)

/-! ### Character-list string operations

The JS string operations are modelled on the character list of a `String`
(the data is ASCII, where JS code-unit semantics and character semantics
agree); these are kernel-reducible, unlike the byte-position-based core
`String` operations. -/

/-- `s.substring(0, n)` / `take`. -/
def takeStr (s : String) (n : Nat) : String := String.mk (s.data.take n)

/-- Drop the first `n` characters. -/
def dropStr (s : String) (n : Nat) : String := String.mk (s.data.drop n)

/-- Drop the last `n` characters. -/
def dropRightStr (s : String) (n : Nat) : String :=
  String.mk (s.data.take (s.data.length - n))

/-- `s.toLowerCase()`. -/
def toLowerStr (s : String) : String := String.mk (s.data.map Char.toLower)

/-- `s.endsWith(t)`. -/
def endsWithStr (s t : String) : Bool := t.data.isSuffixOf s.data

/-- `s.startsWith(t)`. -/
def startsWithStr (s t : String) : Bool := t.data.isPrefixOf s.data

/-- `s.trim()`: whitespace stripped from both ends. -/
def trimStr (s : String) : String :=
  String.mk (((s.data.dropWhile Char.isWhitespace).reverse.dropWhile Char.isWhitespace).reverse)

/-- Lexicographic (code-unit) comparison of character lists, as JS
`Array.prototype.sort()` compares strings. -/
def charListLE : List Char → List Char → Bool
  | [], _ => true
  | _ :: _, [] => false
  | a :: as, b :: bs => if a < b then true else if b < a then false else charListLE as bs

/-- Non-strict lexicographic string order. -/
def strLE (a b : String) : Prop := charListLE a.data b.data = true

/-- Strict lexicographic string order. -/
def strLT (a b : String) : Prop := strLE a b ∧ a ≠ b

instance : DecidableRel strLE := fun a b =>
  inferInstanceAs (Decidable (charListLE a.data b.data = true))

instance : DecidableRel strLT := fun a b =>
  inferInstanceAs (Decidable (strLE a b ∧ a ≠ b))

/-! ## Date inference (`inferMonthFromArxivUrl` / `inferMonth`) -/

/-- Numeric value of a decimal digit character (`parseInt` on one digit). -/
def digitVal (c : Char) : Nat := c.toNat - 48

/-- Case-insensitive literal prefix match: consumes `pat` (given lower-case)
from the head of `cs`, comparing each input character lower-cased; returns
the rest of the input on success. -/
def ciPrefix : List Char → List Char → Option (List Char)
  | [], cs => some cs
  | _ :: _, [] => none
  | p :: ps, c :: cs => if c.toLower = p then ciPrefix ps cs else none

/-- Attempt to match the regex `arxiv\.org\/abs\/(\d{4})\.\d{4,5}(v\d+)?` (as
in the source, case-insensitively) at the head of the character list,
returning the four captured digit characters. -/
def matchArxivAt (cs : List Char) : Option (List Char) :=
  match ciPrefix "arxiv.org/abs/".data cs with
  | none => none
  | some rest =>
    match rest with
    | a :: b :: c :: d :: rest2 =>
      if a.isDigit && b.isDigit && c.isDigit && d.isDigit then
        match rest2 with
        | '.' :: rest3 =>
          if 4 ≤ (rest3.takeWhile Char.isDigit).length then some [a, b, c, d] else none
        | _ => none
      else none
    | _ => none

/-- Scan for the first position where the arXiv pattern matches
(`String.prototype.match` finds the first match). -/
def scanArxiv : List Char → Option (List Char)
  | [] => none
  | c :: rest =>
    match matchArxivAt (c :: rest) with
    | some g => some g
    | none => scanArxiv rest

/-- `String(mm).padStart(2, '0')` for the month number. -/
def pad2 (mm : Nat) : String :=
  if mm < 10 then "0" ++ toString mm else toString mm

/-- `inferMonthFromArxivUrl`: extract `YYMM` from an arXiv `abs` URL and
produce `"(2000+YY)-MM"` provided `1 ≤ MM ≤ 12`, else `null`. -/
def inferMonthFromArxivUrl : Option String → Option String
  | none => none
  | some u =>
    match scanArxiv u.data with
    | some [a, b, c, d] =>
      let yy := 10 * digitVal a + digitVal b
      let mm := 10 * digitVal c + digitVal d
      if 1 ≤ mm ∧ mm ≤ 12 then some (toString (2000 + yy) ++ "-" ++ pad2 mm) else none
    | _ => none

/-- `inferMonth`: use the first 7 characters of an explicit publication date
string of length ≥ 7, else fall back to the arXiv-URL inference. -/
def inferMonth (paper : PaperInfo) : Option String :=
  match paper.publicationDate with
  | some pub =>
    if 7 ≤ pub.length then some (takeStr pub 7) else inferMonthFromArxivUrl paper.arxivUrl
  | none => inferMonthFromArxivUrl paper.arxivUrl

/-- `inferMonth(undefined)` (missing paper-info record) yields `null`. -/
def inferMonthOpt : Option PaperInfo → Option String
  | none => none
  | some p => inferMonth p

/-! ## `dataLoader` utilities -/

/-- `^mental\s+` stripping: remove a leading `"mental"` followed by at least
one whitespace character, together with the whole whitespace run. -/
def stripMentalPrefix (s : String) : String :=
  if startsWithStr s "mental" then
    match (dropStr s 6).data with
    | c :: _ =>
      if c.isWhitespace then String.mk ((dropStr s 6).data.dropWhile Char.isWhitespace) else s
    | [] => s
  else s

/-- `normalizeTheoryName`: lower-case, rewrite a trailing `"theories"` to
`"theory"`, strip a leading `"mental "`, and trim. -/
def normalizeTheoryName (name : String) : String :=
  let s := toLowerStr name
  let s := if endsWithStr s "theories" then dropRightStr s 8 ++ "theory" else s
  trimStr (stripMentalPrefix s)

/-- `parseInt` on a run of decimal digits. -/
def natOfDigits (ds : List Char) : Nat := ds.foldl (fun n c => 10 * n + digitVal c) 0

/-- Scan for the first match of `/Cluster (\d+)/`, returning the captured
number. -/
def findClusterNumber : List Char → Option Nat
  | [] => none
  | c :: rest =>
    if "Cluster ".data.isPrefixOf (c :: rest) then
      let ds := ((c :: rest).drop 8).takeWhile Char.isDigit
      if ds.isEmpty then findClusterNumber rest else some (natOfDigits ds)
    else findClusterNumber rest

/-- `getClusterNumber`: parsed cluster number, or 0 when the name does not
match. -/
def getClusterNumber (clusterName : String) : Nat :=
  (findClusterNumber clusterName.data).getD 0

/-- The comparator `(a, b) => b.citations - a.citations` as a non-strict
relation: descending citation count. -/
def topLE (a b : String × Nat) : Prop := b.2 ≤ a.2

instance : DecidableRel topLE := fun a b => inferInstanceAs (Decidable (b.2 ≤ a.2))

instance : IsTotal (String × Nat) topLE := ⟨fun a b => le_total b.2 a.2⟩

instance : IsTrans (String × Nat) topLE := ⟨fun _ _ _ h h' => le_trans h' h⟩

/-- `getTopTheories`: map entries to (name, citations), stable-sort descending
by citations, take the first `n`. -/
def getTopTheories (ct : List (String × TheoryData)) (n : Nat) : List (String × Nat) :=
  ((ct.map (fun p => (p.1, p.2.citation))).insertionSort topLE).take n

/-- The (name, citations) entries sorted by `getTopTheories`, in declaration
order. -/
def citEntries (ct : List (String × TheoryData)) : List (String × Nat) :=
  ct.map (fun p => (p.1, p.2.citation))

/-- The index-annotated comparator underlying a stable descending sort:
citations descending, with the original position as tiebreaker. -/
def topLEIdx (a b : Nat × (String × Nat)) : Prop :=
  b.2.2 < a.2.2 ∨ (a.2.2 = b.2.2 ∧ a.1 ≤ b.1)

instance : DecidableRel topLEIdx := fun a b =>
  inferInstanceAs (Decidable (b.2.2 < a.2.2 ∨ (a.2.2 = b.2.2 ∧ a.1 ≤ b.1)))

instance : IsTotal (Nat × (String × Nat)) topLEIdx := ⟨fun a b => by
  unfold topLEIdx
  rcases lt_trichotomy a.2.2 b.2.2 with h | h | h
  · exact Or.inr (Or.inl h)
  · rcases Nat.le_total a.1 b.1 with h' | h'
    · exact Or.inl (Or.inr ⟨h, h'⟩)
    · exact Or.inr (Or.inr ⟨h.symm, h'⟩)
  · exact Or.inl (Or.inl h)⟩

instance : IsTrans (Nat × (String × Nat)) topLEIdx := ⟨fun a b c hab hbc => by
  unfold topLEIdx at hab hbc ⊢
  rcases hab with h₁ | ⟨h₁, h₁'⟩ <;> rcases hbc with h₂ | ⟨h₂, h₂'⟩
  · exact Or.inl (h₂.trans h₁)
  · exact Or.inl (by rw [← h₂]; exact h₁)
  · exact Or.inl (by rw [h₁]; exact h₂)
  · exact Or.inr ⟨h₁.trans h₂, h₁'.trans h₂'⟩⟩

/-- `f` strictly precedes `e` in the stable descending order: strictly more
citations, or equal citations and an earlier declaration position. -/
def beats (f e : Nat × (String × Nat)) : Prop :=
  e.2.2 < f.2.2 ∨ (f.2.2 = e.2.2 ∧ f.1 < e.1)

instance : DecidableRel beats := fun f e =>
  inferInstanceAs (Decidable (e.2.2 < f.2.2 ∨ (f.2.2 = e.2.2 ∧ f.1 < e.1)))

/-- Modelled from the spec: `clusterLabels.ts` (the `getClusterLabel`
display-label table) is not part of the sources; §4.1 only requires each
topic node to carry a display label derived from its topic key, with no
formula given.  Modelled as the key itself (the side tag does not influence
any specified property). -/
def getClusterLabel (key : String) (_side : String) : String := key

/-! ## Node/edge assembly (`getBipartiteEdges`) -/

/-- A weighted bipartite edge between topic nodes. -/
structure BipartiteEdge where
  source : String
  target : String
  weight : Nat
deriving Repr, DecidableEq

/-- The paper-ID set of a cluster (`new Set(cluster.docs.map(d => d.paperId))`). -/
def clusterIds (c : Cluster) : List String := c.docs.map (·.paperId)

/-- The citation-counting loop of `getBipartiteEdges` (and of
`getTheoryDistribution`): for each paper whose ID is in `llmIds` and which
has a `references` field, count the references whose ID is in `psychIds`. -/
def edgeWeight (papers : List PaperWithRefs) (llmIds psychIds : List String) : Nat :=
  match papers with
  | [] => 0
  | p :: rest =>
    (if p.paperId ∈ llmIds then
      match p.references with
      | some refs => refs.countP (fun r => decide (r ∈ psychIds))
      | none => 0
    else 0) + edgeWeight rest llmIds psychIds

/-- `getBipartiteEdges`: one edge per (LLM topic, Psychology topic) pair with
a positive citation count. -/
def getBipartiteEdges (st : VizState) : List BipartiteEdge :=
  st.llmClusters.flatMap (fun l =>
    st.psychClusters.filterMap (fun q =>
      if 0 < edgeWeight st.filteredPapers (clusterIds l.2) (clusterIds q.2) then
        some ⟨"LLM-" ++ l.1, "Psych-" ++ q.1,
          edgeWeight st.filteredPapers (clusterIds l.2) (clusterIds q.2)⟩
      else none))

/-- The derived citation-edge relation of the spec (§3): one `(p, q)` pair for
every entry `q` of paper `p`'s reference list. -/
def citationPairs (papers : List PaperWithRefs) : List (String × String) :=
  papers.flatMap (fun p => (p.references.getD []).map (fun r => (p.paperId, r)))

/-- Spec-side edge weight (§4.1): the number of citation pairs crossing the
two paper-ID sets. -/
def pairCount (papers : List PaperWithRefs) (llmIds psychIds : List String) : Nat :=
  (citationPairs papers).countP (fun pr => decide (pr.1 ∈ llmIds) && decide (pr.2 ∈ psychIds))

/-- Spec-side edge list (§4.1, stated from the spec's words for comparison
with `getBipartiteEdges`): weight of a pair = exact count of crossing
citation pairs; zero-weight pairs omitted. -/
def bipartiteEdgesSpec (st : VizState) : List BipartiteEdge :=
  st.llmClusters.flatMap (fun l =>
    st.psychClusters.filterMap (fun q =>
      if pairCount st.filteredPapers (clusterIds l.2) (clusterIds q.2) = 0 then none
      else some ⟨"LLM-" ++ l.1, "Psych-" ++ q.1,
        pairCount st.filteredPapers (clusterIds l.2) (clusterIds q.2)⟩))

/-! ## Time-series construction -/

/-- A point of the cumulative citation time series. -/
structure CitationDataPoint where
  month : String
  citations : Nat
deriving Repr, DecidableEq

/-- All LLM paper IDs (union over all clusters). -/
def allLlmIds (st : VizState) : List String :=
  st.llmClusters.flatMap (fun p => clusterIds p.2)

/-- Paper-ID set used by `getCitationTimeSeries`: the selected cluster's set
when the key is truthy and present, otherwise the union of all clusters. -/
def seriesIds (st : VizState) : Option String → List String
  | some id =>
    if id = "" then allLlmIds st
    else
      match lookupAssoc st.llmClusters id with
      | some c => clusterIds c
      | none => allLlmIds st
  | none => allLlmIds st

/-- The resolved months (with multiplicity) of the papers counted by
`getCitationTimeSeries`: papers with a truthy ID belonging to the selected
set, each contributing its resolved month (papers without one are excluded). -/
def resolvedMonths (st : VizState) (sel : Option String) : List String :=
  ((st.papersInfo.filter
      (fun p => decide (p.paperId ≠ "") && decide (p.paperId ∈ seriesIds st sel))).filterMap
    inferMonth)

/-- Lexicographically sorted list of the distinct month keys. -/
def monthKeysSorted (months : List String) : List String :=
  months.dedup.insertionSort strLE

/-- Running cumulative sum over the sorted month keys. -/
def cumSeries (counts : String → Nat) : List String → Nat → List CitationDataPoint
  | [], _ => []
  | m :: ms, acc => ⟨m, acc + counts m⟩ :: cumSeries counts ms (acc + counts m)

/-- `getCitationTimeSeries`: per-month paper counts for the selected (or all)
LLM topics, emitted as a cumulative series over sorted months. -/
def getCitationTimeSeries (st : VizState) (sel : Option String) : List CitationDataPoint :=
  cumSeries (fun m => (resolvedMonths st sel).count m)
    (monthKeysSorted (resolvedMonths st sel)) 0

/-- One series of `getMultiSeriesCitationData`. -/
structure SeriesEntry where
  psychTopic : String
  psychCluster : Nat
  data : List CitationDataPoint
deriving Repr, DecidableEq

/-- The `papersInfoMap` lookup: built by `set` over papers with truthy IDs
(last write wins). -/
def papersInfoGet (st : VizState) (pid : String) : Option PaperInfo :=
  ((st.papersInfo.filter (fun p => decide (p.paperId ≠ ""))).reverse).find?
    (fun p => decide (p.paperId = pid))

/-- Per-paper (month, positive citation count) contributions of one
(LLM cluster, Psychology cluster) pair in `getMultiSeriesCitationData`. -/
def monthlyContribs (st : VizState) (llmIds psychIds : List String) : List (String × Nat) :=
  st.filteredPapers.filterMap (fun p =>
    if p.paperId ∈ llmIds then
      match inferMonthOpt (papersInfoGet st p.paperId) with
      | some m =>
        match p.references with
        | some refs =>
          let c := refs.countP (fun r => decide (r ∈ psychIds))
          if 0 < c then some (m, c) else none
        | none => none
      | none => none
    else none)

/-- Total citations bucketed at month `m`. -/
def contribCount (contribs : List (String × Nat)) (m : String) : Nat :=
  ((contribs.filter (fun q => decide (q.1 = m))).map (·.2)).sum

/-- The cumulative series of one (LLM cluster, Psychology cluster) pair in
`getMultiSeriesCitationData`. -/
def seriesDataFor (st : VizState) (llmIds psychIds : List String) : List CitationDataPoint :=
  cumSeries (contribCount (monthlyContribs st llmIds psychIds))
    (monthKeysSorted ((monthlyContribs st llmIds psychIds).map (·.1))) 0

/-- `getMultiSeriesCitationData`: one cumulative series per Psychology topic
with at least one bucketed citation, for the given LLM topic key. -/
def getMultiSeriesCitationData (st : VizState) (llmClusterId : String) : List SeriesEntry :=
  match lookupAssoc st.llmClusters llmClusterId with
  | none => []
  | some llmCluster =>
    st.psychClusters.filterMap (fun q =>
      if (seriesDataFor st (clusterIds llmCluster) (clusterIds q.2)).isEmpty then none
      else some ⟨getClusterLabel q.1 "psych", getClusterNumber q.1,
        seriesDataFor st (clusterIds llmCluster) (clusterIds q.2)⟩)

/-! ## Theory table join (`getTheoryTableData`) -/

/-- A row of the theory table. -/
structure TheoryRow where
  subtopic : String
  theory : String
  citations : Nat
  isTopThree : Bool
deriving Repr, DecidableEq

/-- The key under which the secondary clusters and the theory pool are
indexed for a Psychology topic key. -/
def clusterKeyOf (psychClusterId : String) : String :=
  "Cluster " ++ toString (getClusterNumber psychClusterId)

/-- `subtopicOrder.get(t) || 0`: the map is built by `set(topic, index)` over
the subtopic entries (last write wins), and absent or index-0 topics yield 0. -/
def subtopicOrderOf (sec : List (String × SecondaryCluster)) (t : String) : Nat :=
  ((((sec.map (fun p => p.2.topic)).enum).filter (fun q => decide (q.2 = t))).map
    (·.1)).getLast?.getD 0

/-- `normalizedToCanonical.get(n)`: the map is built by
`set(normalizeTheoryName(key), key)` over the pool keys in order (last write
wins), so lookup returns the last pool key with normalized form `n`. -/
def canonicalFor (ct : List (String × TheoryData)) (n : String) : Option String :=
  ((ct.map (·.1)).reverse).find? (fun k => decide (normalizeTheoryName k = n))

/-- JS `x || y` on an optional string: both `undefined` and the falsy empty
string fall back to the default. -/
def jsOrDefault : Option String → String → String
  | none, d => d
  | some s, d => if s = "" then d else s

/-- Name resolution of one subtopic theory name against the topic's theory
pool: exact lookup first, then the normalized-name fallback
(`normalizedToCanonical.get(normalizedName) || theoryName`, so a falsy
empty-string canonical key falls back to the original name); `none` when the
row is dropped.  Returns the canonical name together with its data. -/
def resolveTheory (ct : List (String × TheoryData)) (thName : String) :
    Option (String × TheoryData) :=
  match lookupAssoc ct thName with
  | some td => some (thName, td)
  | none =>
    match lookupAssoc ct (jsOrDefault (canonicalFor ct (normalizeTheoryName thName)) thName) with
    | some td => some (jsOrDefault (canonicalFor ct (normalizeTheoryName thName)) thName, td)
    | none => none

/-- The row comparator of `getTheoryTableData` as a non-strict relation:
subtopic declaration order first, then descending citations. -/
def theoryRowLE (ord : String → Nat) (a b : TheoryRow) : Prop :=
  ord a.subtopic < ord b.subtopic ∨ (ord a.subtopic = ord b.subtopic ∧ b.citations ≤ a.citations)

instance (ord : String → Nat) : DecidableRel (theoryRowLE ord) := fun a b =>
  inferInstanceAs (Decidable (ord a.subtopic < ord b.subtopic ∨
    (ord a.subtopic = ord b.subtopic ∧ b.citations ≤ a.citations)))

/-- The unsorted rows of `getTheoryTableData`: one row per resolvable
(subtopic, theory name) pair, in iteration order. -/
def theoryTableRows (sec : List (String × SecondaryCluster))
    (ct : List (String × TheoryData)) : List TheoryRow :=
  sec.flatMap (fun sub =>
    sub.2.theories.filterMap (fun thName =>
      (resolveTheory ct thName).map (fun r =>
        ⟨sub.2.topic, r.1, r.2.citation,
          decide (r.1 ∈ (getTopTheories ct 3).map (·.1))⟩)))

/-- `getTheoryTableData`: rows for the selected Psychology topic, sorted by
subtopic declaration order and, within a subtopic, by descending citations. -/
def getTheoryTableData (st : VizState) (psychClusterId : String) : List TheoryRow :=
  match lookupAssoc st.secondaryClusters (clusterKeyOf psychClusterId),
        lookupAssoc st.theoryPool (clusterKeyOf psychClusterId) with
  | some sec, some ct =>
    (theoryTableRows sec ct).insertionSort (theoryRowLE (subtopicOrderOf sec))
  | _, _ => []

/-! ## Theory distribution (`getTheoryDistribution`) -/

/-- A row of the theory-distribution bar chart. -/
structure TheoryDistribution where
  topic : String
  citations : Nat
deriving Repr, DecidableEq

/-- Descending-citations comparator of `getTheoryDistribution`. -/
def distLE (a b : TheoryDistribution) : Prop := b.citations ≤ a.citations

instance : DecidableRel distLE := fun a b => inferInstanceAs (Decidable (b.citations ≤ a.citations))

instance : IsTotal TheoryDistribution distLE := ⟨fun a b => le_total b.citations a.citations⟩

instance : IsTrans TheoryDistribution distLE := ⟨fun _ _ _ h h' => le_trans h' h⟩

/-- Scan of the theory pool for a theory name: the first topic whose theory
relation contains the name yields its data. -/
def findTheoryData (pool : List (String × List (String × TheoryData)))
    (name : String) : Option TheoryData :=
  match pool.find? (fun p => (lookupAssoc p.2 name).isSome) with
  | some p => lookupAssoc p.2 name
  | none => none

/-- The paper-ID set resolved from a theory's document titles by lower-cased,
trimmed exact title lookup; unmatched titles contribute nothing. -/
def theoryPaperIds (st : VizState) (td : TheoryData) : List String :=
  td.docs.filterMap (fun t => lookupAssoc st.titleToPaperId (trimStr (toLowerStr t)))

/-- The unsorted distribution rows: one per LLM topic. -/
def distributionRows (st : VizState) (td : TheoryData) : List TheoryDistribution :=
  st.llmClusters.map (fun l =>
    ⟨getClusterLabel l.1 "llm",
      edgeWeight st.filteredPapers (clusterIds l.2) (theoryPaperIds st td)⟩)

/-- `getTheoryDistribution`: one row per LLM topic (zero counts included)
counting citations into the theory's resolved paper-ID set, sorted by
descending count; empty when the title map is empty or the theory is
unknown. -/
def getTheoryDistribution (st : VizState) (theoryName : String) : List TheoryDistribution :=
  if st.titleToPaperId.isEmpty then []
  else
    match findTheoryData st.theoryPool theoryName with
    | none => []
    | some td => (distributionRows st td).insertionSort distLE

/-! ## Dashboard selection state machine -/

/-- The three selection slots of the `Dashboard` component. -/
structure DashState where
  selectedLLMNode : Option String
  selectedPsychNode : Option String
  selectedTheory : Option String
deriving Repr, DecidableEq

/-- `onLLMNodeClick`: toggle the LLM selection. -/
def onLLMNodeClick (s : DashState) (id : String) : DashState :=
  { s with selectedLLMNode := if s.selectedLLMNode = some id then none else some id }

/-- `onPsychNodeClick`: toggle the Psychology selection and clear the theory
selection. -/
def onPsychNodeClick (s : DashState) (id : String) : DashState :=
  { s with
    selectedPsychNode := if s.selectedPsychNode = some id then none else some id,
    selectedTheory := none }

/-- `onTheoryClick`: toggle the theory selection. -/
def onTheoryClick (s : DashState) (t : String) : DashState :=
  { s with selectedTheory := if s.selectedTheory = some t then none else some t }

/-! ## Example states used by witnesses and counterexamples -/

/-- A document with derived title. -/
def mkDoc (pid : String) : Doc := ⟨"T" ++ pid, pid, none⟩

/-- Example theory pool of the example state's Psychology topic 1. -/
def ctEx : List (String × TheoryData) :=
  [("Schema Theory", ⟨10, ["Paper Q1"]⟩), ("Attachment Theory", ⟨10, ["Paper Q2"]⟩),
   ("Cognitive Load Theory", ⟨5, []⟩), ("Drive Theory", ⟨1, []⟩)]

/-- First example subtopic (references a theory only via normalization, and
an unresolvable one). -/
def sub0Ex : String × SecondaryCluster :=
  ("sub0", ⟨1, "Sub One", ["Mental Schema Theories", "Drive Theory", "Missing Theory"], []⟩)

/-- Second example subtopic. -/
def sub1Ex : String × SecondaryCluster :=
  ("sub1", ⟨1, "Sub Two", ["Attachment Theory"], []⟩)

/-- Example secondary clusters of the example state's Psychology topic 1. -/
def secEx : List (String × SecondaryCluster) := [sub0Ex, sub1Ex]

/-- A small fully populated state exercising every view. -/
def stEx : VizState := {
  llmClusters := [
    ("Cluster 0", ⟨2, "LLM A", [mkDoc "l1", mkDoc "l2"]⟩),
    ("Cluster 1", ⟨1, "LLM B", [mkDoc "l3"]⟩)],
  psychClusters := [
    ("Cluster 1", ⟨2, "Psych A", [mkDoc "q1", mkDoc "q2"]⟩),
    ("Cluster 2", ⟨1, "Psych B", [mkDoc "q3"]⟩)],
  theoryPool := [("Cluster 1", ctEx)],
  secondaryClusters := [("Cluster 1", secEx)],
  papersInfo := [
    ⟨"l1", some "2023-05-01", none⟩,
    ⟨"l2", none, some "https://arxiv.org/abs/2310.01234"⟩,
    ⟨"l3", none, none⟩],
  filteredPapers := [
    ⟨"l1", some ["q1", "q2", "x"]⟩,
    ⟨"l2", some ["q1"]⟩,
    ⟨"l3", none⟩],
  titleToPaperId := [("paper q1", "q1"), ("paper q2", "q2")]
}

/-- A state whose only paper has a 4-character publication date string. -/
def stShortDate : VizState := {
  llmClusters := [("Cluster 0", ⟨1, "LLM A", [mkDoc "p1"]⟩)],
  psychClusters := [],
  theoryPool := [],
  secondaryClusters := [],
  papersInfo := [⟨"p1", some "2023", none⟩],
  filteredPapers := [],
  titleToPaperId := []
}

/-- A state with papers but an empty title→paperId map. -/
def stEmptyTitleMap : VizState := {
  llmClusters := [("Cluster 0", ⟨1, "LLM A", [mkDoc "l1"]⟩)],
  psychClusters := [],
  theoryPool := [("Cluster 1", [("Schema Theory", ⟨10, ["Paper Q1"]⟩)])],
  secondaryClusters := [],
  papersInfo := [],
  filteredPapers := [⟨"l1", some ["q1"]⟩],
  titleToPaperId := []
}

/-! ## Theorems -/

/-- Every point of a cumulative series takes its month from the key list. -/
theorem month_mem_of_mem_cumSeries (f : String → Nat) :
    ∀ (ms : List String) (acc : Nat) (pt : CitationDataPoint),
      pt ∈ cumSeries f ms acc → pt.month ∈ ms := by
  intro ms
  induction ms with
  | nil => intro acc pt h; simp [cumSeries] at h
  | cons m ms ih =>
    intro acc pt h
    rw [cumSeries, List.mem_cons] at h
    rcases h with h | h
    · rw [h]
      exact List.mem_cons_self _ _
    · exact List.mem_cons_of_mem _ (ih _ _ h)

/-- Month keys of the series are exactly the resolved months. -/
theorem mem_monthKeysSorted {m : String} {months : List String} :
    m ∈ monthKeysSorted months ↔ m ∈ months := by
  simp [monthKeysSorted, List.mem_insertionSort, List.mem_dedup]

/-- Every resolved month comes from some paper-metadata record via
`inferMonth`. -/
theorem mem_resolvedMonths {st : VizState} {sel : Option String} {m : String}
    (h : m ∈ resolvedMonths st sel) :
    ∃ p, p ∈ st.papersInfo ∧ inferMonth p = some m := by
  simp only [resolvedMonths, List.mem_filterMap, List.mem_filter] at h
  obtain ⟨p, ⟨hp, _⟩, hm⟩ := h
  exact ⟨p, hp, hm⟩

/-- The first match of the arXiv pattern in a URL of the canonical shape
`https://arxiv.org/abs/YYMM.NNNNN` captures the four `YYMM` digits. -/
theorem scanArxiv_https (c₁ c₂ c₃ c₄ : Char) (h₁ : c₁.isDigit) (h₂ : c₂.isDigit)
    (h₃ : c₃.isDigit) (h₄ : c₄.isDigit) :
    scanArxiv ['h', 't', 't', 'p', 's', ':', '/', '/', 'a', 'r', 'x', 'i', 'v', '.', 'o', 'r',
      'g', '/', 'a', 'b', 's', '/', c₁, c₂, c₃, c₄, '.', '0', '1', '2', '3', '4'] =
      some [c₁, c₂, c₃, c₄] := by
  simp [scanArxiv, matchArxivAt, ciPrefix, h₁, h₂, h₃, h₄]

/-- C2 (amended): a publication date string of length ≥ 7 yields its first
7 characters as the month bucket; with no date string, or one shorter than
7 characters, the month falls back to the arXiv-URL inference, which on a
URL `https://arxiv.org/abs/YYMM.NNNNN` yields year `2000+YY` and month `MM`
provided `1 ≤ MM ≤ 12` and `null` otherwise; and every month bucket of the
emitted series comes from some paper's resolved month (papers resolving to
`null` are excluded without error). -/
theorem date_resolution_policy :
    (∀ (pid d : String) (url : Option String), 7 ≤ d.length →
      inferMonth ⟨pid, some d, url⟩ = some (takeStr d 7)) ∧
    (∀ (pid : String) (url : Option String),
      inferMonth ⟨pid, none, url⟩ = inferMonthFromArxivUrl url) ∧
    (∀ (pid d : String) (url : Option String), d.length < 7 →
      inferMonth ⟨pid, some d, url⟩ = inferMonthFromArxivUrl url) ∧
    (∀ c₁ c₂ c₃ c₄ : Char, c₁.isDigit → c₂.isDigit → c₃.isDigit → c₄.isDigit →
      inferMonthFromArxivUrl (some (String.mk
          ("https://arxiv.org/abs/".data ++ [c₁, c₂, c₃, c₄] ++ ".01234".data))) =
        if 1 ≤ 10 * digitVal c₃ + digitVal c₄ ∧ 10 * digitVal c₃ + digitVal c₄ ≤ 12 then
          some (toString (2000 + (10 * digitVal c₁ + digitVal c₂)) ++ "-" ++
            pad2 (10 * digitVal c₃ + digitVal c₄))
        else none) ∧
    (∀ (st : VizState) (sel : Option String) (pt : CitationDataPoint),
      pt ∈ getCitationTimeSeries st sel →
        ∃ p, p ∈ st.papersInfo ∧ inferMonth p = some pt.month) := by
  refine ⟨?_, ?_, ?_, ?_, ?_⟩
  · intro pid d url h
    simp [inferMonth, h]
  · intro pid url
    simp [inferMonth]
  · intro pid d url h
    simp [inferMonth, Nat.not_le.mpr h]
  · intro c₁ c₂ c₃ c₄ h₁ h₂ h₃ h₄
    have hs := scanArxiv_https c₁ c₂ c₃ c₄ h₁ h₂ h₃ h₄
    simp [inferMonthFromArxivUrl, hs]
  · intro st sel pt h
    have hm : pt.month ∈ resolvedMonths st sel := by
      have := month_mem_of_mem_cumSeries _ _ _ _ h
      exact mem_monthKeysSorted.mp this
    exact mem_resolvedMonths hm

/-- Witness for C2 (amended), at concrete inputs: an explicit long date is
truncated to `YYYY-MM`; `2310.01234` infers `2023-10`; month code `13` is
rejected. -/
theorem date_resolution_policy_witness :
    inferMonth ⟨"p", some "2024-01-15", none⟩ = some "2024-01" ∧
    inferMonthFromArxivUrl (some "https://arxiv.org/abs/2310.01234") = some "2023-10" ∧
    inferMonthFromArxivUrl (some "https://arxiv.org/abs/2313.01234") = none := by
  have h := date_resolution_policy
  refine ⟨?_, ?_, ?_⟩
  · rw [h.1 "p" "2024-01-15" none (by decide)]
    decide
  · have e := h.2.2.2.1 '2' '3' '1' '0' (by decide) (by decide) (by decide) (by decide)
    have eu : String.mk ("https://arxiv.org/abs/".data ++ ['2', '3', '1', '0'] ++ ".01234".data) =
        "https://arxiv.org/abs/2310.01234" := rfl
    rw [eu] at e
    rw [e]
    decide
  · have e := h.2.2.2.1 '2' '3' '1' '3' (by decide) (by decide) (by decide) (by decide)
    have eu : String.mk ("https://arxiv.org/abs/".data ++ ['2', '3', '1', '3'] ++ ".01234".data) =
        "https://arxiv.org/abs/2313.01234" := rfl
    rw [eu] at e
    rw [e]
    decide

/-- Counterexample for C2 as stated: a paper carrying the explicit
publication date string `"2023"` (shorter than 7 characters) is not bucketed
at its first-7-characters prefix `"2023"`; it is excluded from the series. -/
theorem short_date_counterexample :
    takeStr "2023" 7 = "2023" ∧
    inferMonth ⟨"p1", some "2023", none⟩ = none ∧
    inferMonth ⟨"p1", some "2023", none⟩ ≠ some (takeStr "2023" 7) ∧
    getCitationTimeSeries stShortDate none = [] := by decide

/-- C7 (amended): an unknown LLM topic key makes `getCitationTimeSeries`
fall back to the all-topics aggregate series (not the empty series);
`getMultiSeriesCitationData` and `getTheoryDistribution` return the empty
result for unknown keys/names; and `getTheoryTableData` depends on its key
only through the derived `"Cluster N"` key (so an unknown key whose parsed
number matches a loaded cluster aliases to that cluster's rows) and is empty
whenever that derived key is absent from the secondary-clusters or
theory-pool relation; none of the views raises an error. -/
theorem unknown_key_degradation (st : VizState) (k name psychId : String) :
    (lookupAssoc st.llmClusters k = none →
      getCitationTimeSeries st (some k) = getCitationTimeSeries st none) ∧
    (lookupAssoc st.llmClusters k = none → getMultiSeriesCitationData st k = []) ∧
    (lookupAssoc st.secondaryClusters (clusterKeyOf psychId) = none ∨
        lookupAssoc st.theoryPool (clusterKeyOf psychId) = none →
      getTheoryTableData st psychId = []) ∧
    (findTheoryData st.theoryPool name = none → getTheoryDistribution st name = []) ∧
    (∀ id id', clusterKeyOf id = clusterKeyOf id' →
      getTheoryTableData st id = getTheoryTableData st id') := by
  refine ⟨fun h => ?_, fun h => ?_, fun h => ?_, fun h => ?_, fun id id' h => ?_⟩
  · have hids : seriesIds st (some k) = seriesIds st none := by
      by_cases hk : k = ""
      · simp [seriesIds, hk]
      · simp [seriesIds, hk, h]
    simp [getCitationTimeSeries, resolvedMonths, hids]
  · simp [getMultiSeriesCitationData, h]
  · rcases h with h | h
    · simp [getTheoryTableData, h]
    · cases hx : lookupAssoc st.secondaryClusters (clusterKeyOf psychId) <;>
        simp [getTheoryTableData, hx, h]
  · unfold getTheoryDistribution
    rw [h]
    simp
  · unfold getTheoryTableData
    rw [h]

/-- Witness for C7 (amended) at a concrete state: the unknown key `"nope"`
yields the all-topics series; multi-series, theory table (derived key
absent) and distribution yield empty results; and `"Cluster 01"` aliases to
`"Cluster 1"`'s rows. -/
theorem unknown_key_degradation_witness :
    getCitationTimeSeries stEx (some "nope") = getCitationTimeSeries stEx none ∧
    getMultiSeriesCitationData stEx "nope" = [] ∧
    getTheoryTableData stEx "Cluster 9" = [] ∧
    getTheoryDistribution stEx "Nope Theory" = [] ∧
    getTheoryTableData stEx "Cluster 01" = getTheoryTableData stEx "Cluster 1" := by
  have h := unknown_key_degradation stEx "nope" "Nope Theory" "Cluster 9"
  exact ⟨h.1 (by decide), h.2.1 (by decide), h.2.2.1 (Or.inl (by decide)), h.2.2.2.1 (by decide),
    h.2.2.2.2 "Cluster 01" "Cluster 1" (by decide)⟩

/-- Counterexample for C7 as stated: at `stEx` the key `"nope"` is not a key
of the loaded LLM relation, yet the time-series view is not empty (it is the
all-topics aggregate); and the key `"Cluster 01"`, present in no loaded
relation, yields a non-empty theory table because its parsed cluster number
aliases it to the loaded `"Cluster 1"`. -/
theorem unknown_key_counterexample :
    lookupAssoc stEx.llmClusters "nope" = none ∧
    getCitationTimeSeries stEx (some "nope") ≠ [] ∧
    lookupAssoc stEx.psychClusters "Cluster 01" = none ∧
    lookupAssoc stEx.secondaryClusters "Cluster 01" = none ∧
    lookupAssoc stEx.theoryPool "Cluster 01" = none ∧
    lookupAssoc stEx.llmClusters "Cluster 01" = none ∧
    getTheoryTableData stEx "Cluster 01" ≠ [] := by decide

/-- The imperative citation-counting loop counts exactly the citation pairs
crossing the two paper-ID sets. -/
theorem edgeWeight_eq_pairCount (papers : List PaperWithRefs) (A B : List String) :
    edgeWeight papers A B = pairCount papers A B := by
  induction papers with
  | nil => rfl
  | cons p rest ih =>
    simp only [edgeWeight, ih]
    unfold pairCount citationPairs
    rw [List.flatMap_cons, List.countP_append]
    congr 1
    rw [List.countP_map]
    by_cases hp : p.paperId ∈ A
    · cases hr : p.references with
      | none => simp [hr, hp]
      | some refs =>
        simp only [hr, hp, if_true, if_pos, Option.getD_some]
        exact List.countP_congr (fun r _ => by simp [Function.comp, hp])
    · cases hr : p.references with
      | none => simp [hr, hp]
      | some refs =>
        simp only [hr, hp, if_false, if_neg, not_false_iff, Option.getD_some]
        symm
        rw [List.countP_eq_zero]
        intro r _
        simp [Function.comp, hp]

/-- C1: `getBipartiteEdges` equals the spec-side edge list — for every
(LLM topic, Psychology topic) pair the emitted weight is the exact number of
(citing paper, referenced paper) pairs crossing the two topics' paper-ID
sets, pairs of weight 0 being omitted — and every emitted edge has
weight ≥ 1. -/
theorem bipartite_edges_weight_exact (st : VizState) :
    getBipartiteEdges st = bipartiteEdgesSpec st ∧
    ∀ e ∈ getBipartiteEdges st, 1 ≤ e.weight := by
  constructor
  · unfold getBipartiteEdges bipartiteEdgesSpec
    congr 1
    funext l
    congr 1
    funext q
    rw [edgeWeight_eq_pairCount]
    by_cases h : pairCount st.filteredPapers (clusterIds l.2) (clusterIds q.2) = 0
    · simp [h]
    · simp [h, Nat.pos_of_ne_zero h]
  · intro e he
    simp only [getBipartiteEdges, List.mem_flatMap, List.mem_filterMap] at he
    obtain ⟨l, _, q, _, hq⟩ := he
    by_cases h : 0 < edgeWeight st.filteredPapers (clusterIds l.2) (clusterIds q.2)
    · rw [if_pos h] at hq
      cases hq
      exact h
    · rw [if_neg h] at hq
      cases hq

/-- Totality of the lexicographic comparison. -/
theorem charListLE_total : ∀ as bs, charListLE as bs = true ∨ charListLE bs as = true := by
  intro as
  induction as with
  | nil => intro bs; left; rfl
  | cons a as ih =>
    intro bs
    cases bs with
    | nil => right; rfl
    | cons b bs =>
      rcases lt_trichotomy a b with h | h | h
      · left; simp [charListLE, h]
      · subst h
        rcases ih bs with h' | h'
        · left; simp [charListLE, lt_irrefl, h']
        · right; simp [charListLE, lt_irrefl, h']
      · right; simp [charListLE, h]

/-- The head analysis of a successful comparison: strictly smaller head, or
equal heads and comparable tails. -/
theorem charListLE_cons (a b : Char) (as bs : List Char)
    (h : charListLE (a :: as) (b :: bs) = true) :
    a < b ∨ (a = b ∧ charListLE as bs = true) := by
  by_cases hab : a < b
  · exact Or.inl hab
  · by_cases hba : b < a
    · simp [charListLE, hab, hba] at h
    · exact Or.inr ⟨le_antisymm (le_of_not_lt hba) (le_of_not_lt hab),
        by simpa [charListLE, hab, hba] using h⟩

/-- Transitivity of the lexicographic comparison. -/
theorem charListLE_trans :
    ∀ as bs cs, charListLE as bs = true → charListLE bs cs = true →
      charListLE as cs = true := by
  intro as
  induction as with
  | nil => intro bs cs _ _; rfl
  | cons a as ih =>
    intro bs cs h₁ h₂
    cases bs with
    | nil => simp [charListLE] at h₁
    | cons b bs =>
      cases cs with
      | nil => simp [charListLE] at h₂
      | cons c cs =>
        rcases charListLE_cons a b as bs h₁ with hab | ⟨hab, h₁'⟩ <;>
          rcases charListLE_cons b c bs cs h₂ with hbc | ⟨hbc, h₂'⟩
        · simp [charListLE, hab.trans hbc]
        · subst hbc; simp [charListLE, hab]
        · subst hab; simp [charListLE, hbc]
        · subst hab; subst hbc
          simp [charListLE, lt_irrefl, ih bs cs h₁' h₂']

/-- Antisymmetry of the lexicographic comparison. -/
theorem charListLE_antisymm :
    ∀ as bs, charListLE as bs = true → charListLE bs as = true → as = bs := by
  intro as
  induction as with
  | nil =>
    intro bs _ h₂
    cases bs with
    | nil => rfl
    | cons b bs => simp [charListLE] at h₂
  | cons a as ih =>
    intro bs h₁ h₂
    cases bs with
    | nil => simp [charListLE] at h₁
    | cons b bs =>
      rcases charListLE_cons a b as bs h₁ with hab | ⟨hab, h₁'⟩
      · rcases charListLE_cons b a bs as h₂ with hba | ⟨hba, _⟩
        · exact absurd hba (asymm hab)
        · exact absurd hab (by rw [hba]; exact lt_irrefl a)
      · subst hab
        rcases charListLE_cons a a bs as h₂ with hba | ⟨_, h₂'⟩
        · exact absurd hba (lt_irrefl a)
        · rw [ih bs h₁' h₂']

instance : IsTotal String strLE := ⟨fun a b => charListLE_total a.data b.data⟩

instance : IsTrans String strLE := ⟨fun _ _ _ h₁ h₂ => charListLE_trans _ _ _ h₁ h₂⟩

/-- Antisymmetry of the string order. -/
theorem strLE_antisymm {a b : String} (h₁ : strLE a b) (h₂ : strLE b a) : a = b := by
  have := charListLE_antisymm a.data b.data h₁ h₂
  cases a; cases b; exact congrArg String.mk this

/-- The months of a cumulative series are its key list. -/
theorem cumSeries_months (f : String → Nat) :
    ∀ (ms : List String) (acc : Nat), (cumSeries f ms acc).map (·.month) = ms := by
  intro ms
  induction ms with
  | nil => intro acc; rfl
  | cons m ms ih => intro acc; rw [cumSeries, List.map_cons, ih]

/-- Every point of a cumulative series carries at least the incoming
accumulator. -/
theorem cumSeries_acc_le (f : String → Nat) :
    ∀ (ms : List String) (acc : Nat) (x : CitationDataPoint),
      x ∈ cumSeries f ms acc → acc ≤ x.citations := by
  intro ms
  induction ms with
  | nil => intro acc x h; simp [cumSeries] at h
  | cons m ms ih =>
    intro acc x h
    rw [cumSeries, List.mem_cons] at h
    rcases h with h | h
    · rw [h]; exact Nat.le_add_right _ _
    · exact le_trans (Nat.le_add_right _ _) (ih _ _ h)

/-- The citations of a cumulative series are non-decreasing. -/
theorem cumSeries_chain (f : String → Nat) :
    ∀ (ms : List String) (acc : Nat),
      List.Chain' (· ≤ ·) ((cumSeries f ms acc).map (·.citations)) := by
  intro ms
  induction ms with
  | nil => intro acc; simp [cumSeries]
  | cons m ms ih =>
    intro acc
    rw [cumSeries, List.map_cons, List.chain'_cons']
    refine ⟨?_, ih _⟩
    intro y hy
    cases hh : cumSeries f ms (acc + f m) with
    | nil => rw [hh] at hy; simp at hy
    | cons z zs =>
      rw [hh] at hy
      simp only [List.map_cons, List.head?_cons, Option.mem_def, Option.some.injEq] at hy
      have hz := cumSeries_acc_le f ms (acc + f m) z (by rw [hh]; exact List.mem_cons_self _ _)
      rw [hy] at hz
      exact hz

/-- The sorted month keys are sorted for the non-strict order. -/
theorem monthKeysSorted_sorted (months : List String) :
    (monthKeysSorted months).Sorted strLE :=
  List.sorted_insertionSort strLE months.dedup

/-- The sorted month keys contain no duplicates. -/
theorem monthKeysSorted_nodup (months : List String) : (monthKeysSorted months).Nodup :=
  (List.perm_insertionSort strLE months.dedup).nodup_iff.mpr (List.nodup_dedup months)

/-- The sorted month keys are strictly increasing. -/
theorem monthKeysSorted_pairwise_lt (months : List String) :
    (monthKeysSorted months).Pairwise strLT :=
  (monthKeysSorted_sorted months).and (monthKeysSorted_nodup months)

/-- Sortedness and monotonicity of one multi-series entry's data. -/
theorem seriesDataFor_props (st : VizState) (llmIds psychIds : List String) :
    ((seriesDataFor st llmIds psychIds).map (·.month)).Pairwise strLT ∧
    List.Chain' (· ≤ ·) ((seriesDataFor st llmIds psychIds).map (·.citations)) := by
  constructor
  · rw [seriesDataFor, cumSeries_months]
    exact monthKeysSorted_pairwise_lt _
  · exact cumSeries_chain _ _ _

/-- C5: for every state and selection, the single time series is strictly
increasing in its (lexicographically sorted) months, has exactly one point
per distinct resolved month, and is non-decreasing in its citations; and
every series of the multi-series view is likewise sorted and
non-decreasing. -/
theorem time_series_cumulative_monotone (st : VizState) (sel : Option String) (k : String) :
    ((getCitationTimeSeries st sel).map (·.month)).Pairwise strLT ∧
    List.Chain' (· ≤ ·) ((getCitationTimeSeries st sel).map (·.citations)) ∧
    (∀ m, m ∈ (getCitationTimeSeries st sel).map (·.month) ↔ m ∈ resolvedMonths st sel) ∧
    (∀ s ∈ getMultiSeriesCitationData st k,
      (s.data.map (·.month)).Pairwise strLT ∧
      List.Chain' (· ≤ ·) (s.data.map (·.citations))) := by
  refine ⟨?_, ?_, ?_, ?_⟩
  · rw [getCitationTimeSeries, cumSeries_months]
    exact monthKeysSorted_pairwise_lt _
  · exact cumSeries_chain _ _ _
  · intro m
    rw [getCitationTimeSeries, cumSeries_months, mem_monthKeysSorted]
  · intro s hs
    unfold getMultiSeriesCitationData at hs
    cases hl : lookupAssoc st.llmClusters k with
    | none => rw [hl] at hs; simp at hs
    | some llmCluster =>
      rw [hl] at hs
      simp only [List.mem_filterMap] at hs
      obtain ⟨q, _, hq⟩ := hs
      by_cases he : (seriesDataFor st (clusterIds llmCluster) (clusterIds q.2)).isEmpty
      · rw [if_pos he] at hq
        cases hq
      · rw [if_neg he] at hq
        cases hq
        exact seriesDataFor_props st (clusterIds llmCluster) (clusterIds q.2)

/-- Witness for C5 at the concrete state `stEx`: the all-topics series and a
concrete multi-series entry are sorted and monotone. -/
theorem time_series_cumulative_monotone_witness :
    ((getCitationTimeSeries stEx none).map (·.month)).Pairwise strLT ∧
    List.Chain' (· ≤ ·) ((getCitationTimeSeries stEx none).map (·.citations)) ∧
    ("2023-05" ∈ (getCitationTimeSeries stEx none).map (·.month) ↔
      "2023-05" ∈ resolvedMonths stEx none) ∧
    ((⟨"Cluster 1", 1,
        [⟨"2023-05", 2⟩, ⟨"2023-10", 3⟩]⟩ : SeriesEntry) ∈
      getMultiSeriesCitationData stEx "Cluster 0") ∧
    (([⟨"2023-05", 2⟩, ⟨"2023-10", 3⟩] : List CitationDataPoint).map
        (·.citations)).Chain' (· ≤ ·) := by
  have h := time_series_cumulative_monotone stEx none "Cluster 0"
  refine ⟨h.1, h.2.1, h.2.2.1 "2023-05", by decide, ?_⟩
  exact (h.2.2.2 ⟨"Cluster 1", 1, [⟨"2023-05", 2⟩, ⟨"2023-10", 3⟩]⟩ (by decide)).2

/-- C8: every selection transition is orthogonal and toggling: clicking the
currently selected node of either axis clears that axis; clicking the same
LLM node twice from an unselected state returns it to unselected; selecting
a (different) Psychology topic clears the theory selection; LLM transitions
leave the Psychology and theory selections unchanged, and Psychology/theory
transitions leave the LLM selection unchanged. -/
theorem selection_state_machine (s : DashState) (id t : String) :
    (s.selectedLLMNode = some id → (onLLMNodeClick s id).selectedLLMNode = none) ∧
    (s.selectedPsychNode = some id → (onPsychNodeClick s id).selectedPsychNode = none) ∧
    (s.selectedLLMNode = none →
      (onLLMNodeClick (onLLMNodeClick s id) id).selectedLLMNode = none) ∧
    (s.selectedPsychNode ≠ some id → (onPsychNodeClick s id).selectedTheory = none) ∧
    ((onLLMNodeClick s id).selectedPsychNode = s.selectedPsychNode ∧
      (onLLMNodeClick s id).selectedTheory = s.selectedTheory) ∧
    ((onPsychNodeClick s id).selectedLLMNode = s.selectedLLMNode) ∧
    ((onTheoryClick s t).selectedLLMNode = s.selectedLLMNode ∧
      (onTheoryClick s t).selectedPsychNode = s.selectedPsychNode) := by
  refine ⟨fun h => ?_, fun h => ?_, fun h => ?_, fun _ => rfl, ⟨rfl, rfl⟩, rfl, rfl, rfl⟩
  · simp [onLLMNodeClick, h]
  · simp [onPsychNodeClick, h]
  · simp [onLLMNodeClick, h]

/-- Witness for C8 at a concrete state: a selected theory is cleared by
selecting a new Psychology topic, and double-clicking an LLM node from the
idle state returns the LLM axis to idle. -/
theorem selection_state_machine_witness :
    ((⟨none, some "Psych-1", some "Schema Theory"⟩ : DashState).selectedPsychNode
        ≠ some "Psych-2") ∧
    (onPsychNodeClick ⟨none, some "Psych-1", some "Schema Theory"⟩
        "Psych-2").selectedTheory = none ∧
    (onLLMNodeClick (onLLMNodeClick ⟨none, some "Psych-1", some "Schema Theory"⟩
        "LLM-0") "LLM-0").selectedLLMNode = none := by
  refine ⟨by decide, ?_, ?_⟩
  · exact (selection_state_machine ⟨none, some "Psych-1", some "Schema Theory"⟩
      "Psych-2" "X").2.2.2.1 (by decide)
  · exact (selection_state_machine ⟨none, some "Psych-1", some "Schema Theory"⟩
      "LLM-0" "X").2.2.1 rfl

/-- C10: with an empty title→paperId map, `getTheoryDistribution` returns the
empty list for every theory name, even one present in the theory pool. -/
theorem empty_title_map_distribution (st : VizState) (h : st.titleToPaperId = [])
    (name : String) : getTheoryDistribution st name = [] := by
  simp [getTheoryDistribution, h]

/-- Witness for C10: a state whose theory pool contains the queried theory
and which has an LLM topic, yet the distribution is empty. -/
theorem empty_title_map_distribution_witness :
    stEmptyTitleMap.titleToPaperId = [] ∧
    (findTheoryData stEmptyTitleMap.theoryPool "Schema Theory").isSome = true ∧
    stEmptyTitleMap.llmClusters ≠ [] ∧
    getTheoryDistribution stEmptyTitleMap "Schema Theory" = [] :=
  ⟨rfl, by decide, by decide, empty_title_map_distribution stEmptyTitleMap rfl "Schema Theory"⟩


/-- `resolveTheory` returns entries backed by the theory pool: the canonical
name it reports looks up to the data it reports. -/
theorem resolveTheory_lookup {ct : List (String × TheoryData)} {thName canonical : String}
    {td : TheoryData} (h : resolveTheory ct thName = some (canonical, td)) :
    lookupAssoc ct canonical = some td := by
  unfold resolveTheory at h
  cases hx : lookupAssoc ct thName with
  | some td' =>
    rw [hx] at h
    cases h
    exact hx
  | none =>
    rw [hx] at h
    cases hy : lookupAssoc ct
        (jsOrDefault (canonicalFor ct (normalizeTheoryName thName)) thName) with
    | some td' =>
      rw [hy] at h
      cases h
      exact hy
    | none =>
      rw [hy] at h
      cases h

/-- With both relations present, the theory table is the stable sort of the
per-subtopic resolved rows. -/
theorem getTheoryTableData_eq {st : VizState} {psychClusterId : String}
    {sec : List (String × SecondaryCluster)} {ct : List (String × TheoryData)}
    (hsec : lookupAssoc st.secondaryClusters (clusterKeyOf psychClusterId) = some sec)
    (hct : lookupAssoc st.theoryPool (clusterKeyOf psychClusterId) = some ct) :
    getTheoryTableData st psychClusterId =
      (theoryTableRows sec ct).insertionSort (theoryRowLE (subtopicOrderOf sec)) := by
  unfold getTheoryTableData
  rw [hsec, hct]

/-- A resolved (subtopic, theory name) pair yields its row in the theory
table. -/
theorem mem_theoryTableData_of_resolve {st : VizState} {psychClusterId : String}
    {sec : List (String × SecondaryCluster)} {ct : List (String × TheoryData)}
    (hsec : lookupAssoc st.secondaryClusters (clusterKeyOf psychClusterId) = some sec)
    (hct : lookupAssoc st.theoryPool (clusterKeyOf psychClusterId) = some ct)
    {sub : String × SecondaryCluster} (hsub : sub ∈ sec) {thName : String}
    (hth : thName ∈ sub.2.theories) {r : String × TheoryData}
    (hres : resolveTheory ct thName = some r) :
    (⟨sub.2.topic, r.1, r.2.citation,
      decide (r.1 ∈ (getTopTheories ct 3).map (·.1))⟩ : TheoryRow) ∈
      getTheoryTableData st psychClusterId := by
  rw [getTheoryTableData_eq hsec hct, List.mem_insertionSort]
  unfold theoryTableRows
  rw [List.mem_flatMap]
  refine ⟨sub, hsub, ?_⟩
  rw [List.mem_filterMap]
  exact ⟨thName, hth, by rw [hres]; rfl⟩

/-- Every row of the theory table is backed by a pool entry under the row's
(canonical) theory name. -/
theorem theoryTableData_row_resolvable {st : VizState} {psychClusterId : String}
    {sec : List (String × SecondaryCluster)} {ct : List (String × TheoryData)}
    (hsec : lookupAssoc st.secondaryClusters (clusterKeyOf psychClusterId) = some sec)
    (hct : lookupAssoc st.theoryPool (clusterKeyOf psychClusterId) = some ct)
    {row : TheoryRow} (hrow : row ∈ getTheoryTableData st psychClusterId) :
    ∃ td, lookupAssoc ct row.theory = some td ∧ row.citations = td.citation := by
  rw [getTheoryTableData_eq hsec hct, List.mem_insertionSort] at hrow
  unfold theoryTableRows at hrow
  rw [List.mem_flatMap] at hrow
  obtain ⟨sub, _, hrow⟩ := hrow
  rw [List.mem_filterMap] at hrow
  obtain ⟨thName, _, hmap⟩ := hrow
  cases hres : resolveTheory ct thName with
  | none => rw [hres] at hmap; cases hmap
  | some r =>
    rw [hres] at hmap
    cases hmap
    exact ⟨r.2, resolveTheory_lookup hres, rfl⟩

/-- The number of theory-table rows equals the number of resolvable
(subtopic, theory name) pairs: unresolvable pairs are dropped silently. -/
theorem theoryTableRows_length (sec : List (String × SecondaryCluster))
    (ct : List (String × TheoryData)) :
    (theoryTableRows sec ct).length =
      (sec.flatMap (fun sub => sub.2.theories)).countP
        (fun thName => (resolveTheory ct thName).isSome) := by
  unfold theoryTableRows
  induction sec with
  | nil => rfl
  | cons s rest ih =>
    rw [List.flatMap_cons, List.flatMap_cons, List.length_append, List.countP_append, ih]
    congr 1
    rw [List.length_filterMap_eq_countP]
    apply List.countP_congr
    intro n _
    cases resolveTheory ct n <;> simp

/-- C3: each subtopic theory name resolves against the topic's theory pool
first by exact name, then by the normalized-name fallback (whose matched
pool key must be truthy, i.e. not the empty string, or the code's
`|| theoryName` falls back to the unresolvable original), and unresolvable
names are dropped silently; in particular "Mental Schema Theories"
normalizes identically to "Schema Theory". -/
theorem theory_name_resolution (st : VizState) (psychClusterId : String)
    (sec : List (String × SecondaryCluster)) (ct : List (String × TheoryData))
    (hsec : lookupAssoc st.secondaryClusters (clusterKeyOf psychClusterId) = some sec)
    (hct : lookupAssoc st.theoryPool (clusterKeyOf psychClusterId) = some ct) :
    (∀ sub ∈ sec, ∀ thName ∈ sub.2.theories, ∀ td,
      lookupAssoc ct thName = some td →
      (⟨sub.2.topic, thName, td.citation,
        decide (thName ∈ (getTopTheories ct 3).map (·.1))⟩ : TheoryRow) ∈
        getTheoryTableData st psychClusterId) ∧
    (∀ sub ∈ sec, ∀ thName ∈ sub.2.theories, ∀ canonical td,
      lookupAssoc ct thName = none →
      canonicalFor ct (normalizeTheoryName thName) = some canonical →
      canonical ≠ "" →
      lookupAssoc ct canonical = some td →
      (⟨sub.2.topic, canonical, td.citation,
        decide (canonical ∈ (getTopTheories ct 3).map (·.1))⟩ : TheoryRow) ∈
        getTheoryTableData st psychClusterId) ∧
    (∀ row ∈ getTheoryTableData st psychClusterId,
      ∃ td, lookupAssoc ct row.theory = some td ∧ row.citations = td.citation) ∧
    normalizeTheoryName "Mental Schema Theories" = normalizeTheoryName "Schema Theory" ∧
    (getTheoryTableData st psychClusterId).length =
      (sec.flatMap (fun sub => sub.2.theories)).countP
        (fun thName => (resolveTheory ct thName).isSome) := by
  refine ⟨?_, ?_, ?_, by decide, ?_⟩
  · intro sub hsub thName hth td hl
    have hres : resolveTheory ct thName = some (thName, td) := by
      unfold resolveTheory
      rw [hl]
    exact mem_theoryTableData_of_resolve hsec hct hsub hth hres
  · intro sub hsub thName hth canonical td hnone hcanon hne hl
    have hres : resolveTheory ct thName = some (canonical, td) := by
      unfold resolveTheory
      rw [hnone, hcanon]
      simp only [jsOrDefault]
      rw [if_neg hne, hl]
    exact mem_theoryTableData_of_resolve hsec hct hsub hth hres
  · intro row hrow
    exact theoryTableData_row_resolvable hsec hct hrow
  · rw [getTheoryTableData_eq hsec hct, List.length_insertionSort, theoryTableRows_length]

/-- Witness for C3 at the concrete state: the exactly-named "Drive Theory"
row, the fallback-resolved "Schema Theory" row, and the dropped
"Missing Theory" are all observable in `getTheoryTableData stEx "Cluster 1"`. -/
theorem theory_name_resolution_witness :
    (⟨"Sub One", "Drive Theory", 1,
      decide ("Drive Theory" ∈ (getTopTheories ctEx 3).map (·.1))⟩ : TheoryRow) ∈
      getTheoryTableData stEx "Cluster 1" ∧
    (getTheoryTableData stEx "Cluster 1").length =
      (secEx.flatMap (fun sub => sub.2.theories)).countP
        (fun thName => (resolveTheory ctEx thName).isSome) := by
  have h := theory_name_resolution stEx "Cluster 1" secEx ctEx (by decide) (by decide)
  exact ⟨h.1 sub0Ex (by decide) "Drive Theory" (by decide) ⟨1, []⟩ (by decide), h.2.2.2.2⟩

/-- C9: a subtopic theory name resolved only through the normalized-name
fallback (to a truthy canonical pool key — an empty-string key is falsy and
the code's `|| theoryName` would drop the row instead) yields a row whose
`theory` field is the pool's canonical key (not the subtopic's spelling),
with `isTopThree` computed from that canonical name's membership in the
top-three set. -/
theorem fallback_row_canonical_name (st : VizState) (psychClusterId : String)
    (sec : List (String × SecondaryCluster)) (ct : List (String × TheoryData))
    (sub : String × SecondaryCluster) (thName canonical : String) (td : TheoryData)
    (hsec : lookupAssoc st.secondaryClusters (clusterKeyOf psychClusterId) = some sec)
    (hct : lookupAssoc st.theoryPool (clusterKeyOf psychClusterId) = some ct)
    (hsub : sub ∈ sec) (hth : thName ∈ sub.2.theories)
    (hexact : lookupAssoc ct thName = none)
    (hcanon : canonicalFor ct (normalizeTheoryName thName) = some canonical)
    (hne : canonical ≠ "")
    (hdata : lookupAssoc ct canonical = some td) :
    resolveTheory ct thName = some (canonical, td) ∧
    (⟨sub.2.topic, canonical, td.citation,
      decide (canonical ∈ (getTopTheories ct 3).map (·.1))⟩ : TheoryRow) ∈
      getTheoryTableData st psychClusterId := by
  have hres : resolveTheory ct thName = some (canonical, td) := by
    unfold resolveTheory
    rw [hexact, hcanon]
    simp only [jsOrDefault]
    rw [if_neg hne, hdata]
  exact ⟨hres, mem_theoryTableData_of_resolve hsec hct hsub hth hres⟩

/-- Witness for C9: "Mental Schema Theories" is absent from the pool, its
normalized form selects the pool key "Schema Theory", and the emitted row
carries "Schema Theory" (marked top-three). -/
theorem fallback_row_canonical_name_witness :
    resolveTheory ctEx "Mental Schema Theories" = some ("Schema Theory", ⟨10, ["Paper Q1"]⟩) ∧
    (⟨"Sub One", "Schema Theory", 10,
      decide ("Schema Theory" ∈ (getTopTheories ctEx 3).map (·.1))⟩ : TheoryRow) ∈
      getTheoryTableData stEx "Cluster 1" := by
  have h := fallback_row_canonical_name stEx "Cluster 1" secEx ctEx sub0Ex
    "Mental Schema Theories" "Schema Theory" ⟨10, ["Paper Q1"]⟩
    (by decide) (by decide) (by decide) (by decide) (by decide) (by decide) (by decide)
    (by decide)
  exact h

/-- Counterexample for C6 as stated: with an empty title→paperId map, a
theory present in the pool yields no rows at all although an LLM topic is
loaded, so the output does not have one row per LLM topic. -/
theorem theory_distribution_empty_map_counterexample :
    (findTheoryData stEmptyTitleMap.theoryPool "Schema Theory").isSome = true ∧
    stEmptyTitleMap.llmClusters.length = 1 ∧
    getTheoryDistribution stEmptyTitleMap "Schema Theory" = [] ∧
    (getTheoryDistribution stEmptyTitleMap "Schema Theory").length ≠
      stEmptyTitleMap.llmClusters.length := by decide

/-- C6 (amended): provided the title→paperId map is nonempty, for every
theory name found in the pool the distribution resolves document titles by
lower-cased trimmed exact match (unmatched titles contribute nothing),
returns exactly one row per LLM topic — zero-count topics included — and is
sorted by descending citations. -/
theorem theory_distribution_rows (st : VizState) (name : String) (td : TheoryData)
    (hne : st.titleToPaperId ≠ [])
    (hfind : findTheoryData st.theoryPool name = some td) :
    (getTheoryDistribution st name).length = st.llmClusters.length ∧
    (getTheoryDistribution st name).Sorted distLE ∧
    (getTheoryDistribution st name).Perm (st.llmClusters.map (fun l =>
      ⟨getClusterLabel l.1 "llm",
        pairCount st.filteredPapers (clusterIds l.2) (theoryPaperIds st td)⟩)) ∧
    (∀ pid, pid ∈ theoryPaperIds st td ↔
      ∃ t ∈ td.docs, lookupAssoc st.titleToPaperId (trimStr (toLowerStr t)) = some pid) := by
  have hempty : ¬ st.titleToPaperId.isEmpty = true := by
    cases hl : st.titleToPaperId with
    | nil => exact absurd hl hne
    | cons a l => simp
  have hdef : getTheoryDistribution st name = (distributionRows st td).insertionSort distLE := by
    unfold getTheoryDistribution
    rw [if_neg hempty, hfind]
  refine ⟨?_, ?_, ?_, ?_⟩
  · rw [hdef, List.length_insertionSort]
    unfold distributionRows
    rw [List.length_map]
  · rw [hdef]
    exact List.sorted_insertionSort distLE _
  · rw [hdef]
    refine (List.perm_insertionSort distLE _).trans ?_
    have : distributionRows st td = st.llmClusters.map (fun l =>
        ⟨getClusterLabel l.1 "llm",
          pairCount st.filteredPapers (clusterIds l.2) (theoryPaperIds st td)⟩) := by
      unfold distributionRows
      apply List.map_congr_left
      intro l _
      rw [edgeWeight_eq_pairCount]
    rw [this]
  · intro pid
    unfold theoryPaperIds
    rw [List.mem_filterMap]

/-- Witness for C6 (amended) at the concrete state: "Schema Theory" yields
one row per LLM topic, sorted descending, and the orphan title resolution
holds. -/
theorem theory_distribution_rows_witness :
    (getTheoryDistribution stEx "Schema Theory").length = stEx.llmClusters.length ∧
    (getTheoryDistribution stEx "Schema Theory").Sorted distLE ∧
    ("q1" ∈ theoryPaperIds stEx ⟨10, ["Paper Q1"]⟩ ↔
      ∃ t ∈ (⟨10, ["Paper Q1"]⟩ : TheoryData).docs,
        lookupAssoc stEx.titleToPaperId (trimStr (toLowerStr t)) = some "q1") := by
  have h := theory_distribution_rows stEx "Schema Theory" ⟨10, ["Paper Q1"]⟩
    (by decide) (by decide)
  exact ⟨h.1, h.2.1, h.2.2.2 "q1"⟩


/-- Entries of `enumFrom n` have index at least `n`. -/
theorem le_fst_of_mem_enumFrom {α : Type} :
    ∀ (l : List α) (n : Nat) (x : Nat × α), x ∈ l.enumFrom n → n ≤ x.1 := by
  intro l
  induction l with
  | nil => intro n x h; simp [List.enumFrom] at h
  | cons a as ih =>
    intro n x h
    rw [show (a :: as).enumFrom n = (n, a) :: as.enumFrom (n + 1) from rfl,
      List.mem_cons] at h
    rcases h with h | h
    · rw [h]
    · exact le_trans (Nat.le_succ n) (ih (n + 1) x h)

/-- `orderedInsert` commutes with dropping the index annotation, provided the
inserted index is below every index in the list. -/
theorem orderedInsert_map_snd (a : String × Nat) :
    ∀ (L : List (Nat × (String × Nat))) (i : Nat), (∀ x ∈ L, i < x.1) →
      (L.map Prod.snd).orderedInsert topLE a =
        (L.orderedInsert topLEIdx (i, a)).map Prod.snd := by
  intro L
  induction L with
  | nil => intro i _; rfl
  | cons y L ih =>
    intro i hi
    have hiff : topLE a y.2 ↔ topLEIdx (i, a) y := by
      unfold topLE topLEIdx
      constructor
      · intro h
        rcases lt_or_eq_of_le h with h' | h'
        · exact Or.inl h'
        · exact Or.inr ⟨h'.symm, le_of_lt (hi y (List.mem_cons_self _ _))⟩
      · intro h
        rcases h with h | ⟨h, _⟩
        · exact le_of_lt h
        · exact le_of_eq h.symm
    rw [List.map_cons, List.orderedInsert, List.orderedInsert]
    by_cases h : topLE a y.2
    · rw [if_pos h, if_pos (hiff.mp h), List.map_cons, List.map_cons]
    · rw [if_neg h, if_neg (fun hc => h (hiff.mpr hc)), List.map_cons,
        ih i (fun x hx => hi x (List.mem_cons_of_mem _ hx))]

/-- The unannotated stable sort is the index-annotated sort with the
annotation dropped. -/
theorem insertionSort_enumFrom :
    ∀ (l : List (String × Nat)) (n : Nat),
      l.insertionSort topLE = ((l.enumFrom n).insertionSort topLEIdx).map Prod.snd := by
  intro l
  induction l with
  | nil => intro n; rfl
  | cons a l ih =>
    intro n
    rw [show (a :: l).enumFrom n = (n, a) :: l.enumFrom (n + 1) from rfl]
    rw [List.insertionSort, List.insertionSort, ih (n + 1)]
    apply orderedInsert_map_snd
    intro x hx
    have hxE : x ∈ l.enumFrom (n + 1) := (List.mem_insertionSort _).mp hx
    have := le_fst_of_mem_enumFrom l (n + 1) x hxE
    omega

/-- In a sorted list whose order is antisymmetric on its elements, membership
in the first `n` positions is equivalent to having fewer than `n` strictly
smaller elements. -/
theorem mem_take_sorted_iff {α : Type} (r : α → α → Prop) [DecidableRel r] :
    ∀ (s : List α), s.Sorted r →
      (∀ x ∈ s, ∀ y ∈ s, r x y → r y x → x = y) →
      ∀ x ∈ s, ∀ n : Nat,
        (x ∈ s.take n ↔
          s.countP (fun y => decide (r y x) && !(decide (r x y))) < n) := by
  intro s
  induction s with
  | nil => intro _ _ x hx; exact absurd hx (List.not_mem_nil x)
  | cons y t ih =>
    intro hs hanti x hx n
    have hy : ∀ z ∈ t, r y z := List.rel_of_sorted_cons hs
    have ht : t.Sorted r := hs.of_cons
    cases n with
    | zero => simp
    | succ n =>
      rw [List.countP_cons]
      by_cases hxy : x = y
      · subst hxy
        have hc0 : t.countP (fun z => decide (r z x) && !(decide (r x z))) = 0 := by
          rw [List.countP_eq_zero]
          intro z hz
          simp [hy z hz]
        have hcx : (decide (r x x) && !(decide (r x x))) = false := by
          cases hdec : decide (r x x) <;> simp [hdec]
        rw [hc0, hcx, List.take_succ_cons]
        simp
      · have hxt : x ∈ t := by
          rcases List.mem_cons.mp hx with h | h
          · exact absurd h hxy
          · exact h
        have hryx : r y x := hy x hxt
        by_cases hrxy : r x y
        · exact absurd (hanti x hx y (List.mem_cons_self _ _) hrxy hryx) hxy
        · have hcy : (decide (r y x) && !(decide (r x y))) = true := by
            simp [hryx, hrxy]
          rw [hcy, List.take_succ_cons, List.mem_cons, if_pos rfl]
          have hIH := ih ht
            (fun p hp q hq => hanti p (List.mem_cons_of_mem _ hp) q (List.mem_cons_of_mem _ hq))
            x hxt n
          constructor
          · intro h
            rcases h with h | h
            · exact absurd h hxy
            · have := hIH.mp h
              omega
          · intro h
            right
            exact hIH.mpr (by omega)


/-- Two enum entries with the same index are equal. -/
theorem enum_fst_inj {l : List (String × Nat)} {f e : Nat × (String × Nat)}
    (hf : f ∈ l.enum) (he : e ∈ l.enum) (h : f.1 = e.1) : f = e := by
  have hf' := List.mem_enum_iff_getElem?.mp hf
  have he' := List.mem_enum_iff_getElem?.mp he
  rw [h] at hf'
  have := (hf'.symm.trans he')
  exact Prod.ext h (Option.some.inj this)

/-- With pairwise distinct names, two enum entries with the same name are
equal. -/
theorem enum_name_inj {l : List (String × Nat)} (hnd : (l.map (·.1)).Nodup)
    {f e : Nat × (String × Nat)} (hf : f ∈ l.enum) (he : e ∈ l.enum)
    (h : f.2.1 = e.2.1) : f = e := by
  have hf' := List.mem_enum_iff_getElem?.mp hf
  have he' := List.mem_enum_iff_getElem?.mp he
  have hf'' : (l.map (·.1))[f.1]? = some f.2.1 := by
    rw [List.getElem?_map, hf']
    rfl
  have he'' : (l.map (·.1))[e.1]? = some e.2.1 := by
    rw [List.getElem?_map, he']
    rfl
  have hflt : f.1 < (l.map (·.1)).length := (List.getElem?_eq_some.mp hf'').1
  have hidx : f.1 = e.1 := by
    apply List.getElem?_inj hflt hnd
    rw [hf'', he'', h]
  exact enum_fst_inj hf he hidx

/-- Strictly-above in the annotated order coincides with `beats`. -/
theorem strictAbove_eq_beats (f e : Nat × (String × Nat)) :
    (decide (topLEIdx f e) && !(decide (topLEIdx e f))) = decide (beats f e) := by
  have hiff : (topLEIdx f e ∧ ¬ topLEIdx e f) ↔ beats f e := by
    unfold topLEIdx beats
    constructor
    · rintro ⟨h₁ | ⟨h₁, h₁'⟩, h₂⟩
      · exact Or.inl h₁
      · refine Or.inr ⟨h₁, ?_⟩
        by_contra hlt
        push_neg at hlt
        exact h₂ (Or.inr ⟨h₁.symm, hlt⟩)
    · rintro (h | ⟨h, h'⟩)
      · refine ⟨Or.inl h, ?_⟩
        rintro (hc | ⟨hc, _⟩)
        · exact absurd hc (asymm h)
        · rw [hc] at h
          exact lt_irrefl _ h
      · refine ⟨Or.inr ⟨h, le_of_lt h'⟩, ?_⟩
        rintro (hc | ⟨hc, hc'⟩)
        · rw [h] at hc
          exact lt_irrefl _ hc
        · exact absurd hc' (Nat.not_le.mpr h')
  calc (decide (topLEIdx f e) && !(decide (topLEIdx e f)))
      = decide (topLEIdx f e ∧ ¬ topLEIdx e f) := by simp
    _ = decide (beats f e) := decide_eq_decide.mpr hiff

/-- A name is among the top-`3` names iff fewer than 3 entries beat its
entry: the stable descending sort selects exactly the entries of rank < 3
in the (citations desc, declaration order) order. -/
theorem mem_topNames_iff (ct : List (String × TheoryData))
    (hnd : (ct.map (·.1)).Nodup) (e : Nat × (String × Nat))
    (he : e ∈ (citEntries ct).enum) :
    e.2.1 ∈ (getTopTheories ct 3).map (·.1) ↔
      (citEntries ct).enum.countP (fun f => decide (beats f e)) < 3 := by
  have hndl : ((citEntries ct).map (·.1)).Nodup := by
    unfold citEntries
    rw [List.map_map]
    exact hnd
  have hsort : getTopTheories ct 3 =
      (((citEntries ct).enum.insertionSort topLEIdx).take 3).map Prod.snd := by
    unfold getTopTheories
    rw [show ct.map (fun p => (p.1, p.2.citation)) = citEntries ct from rfl]
    rw [insertionSort_enumFrom (citEntries ct) 0]
    rw [show (citEntries ct).enumFrom 0 = (citEntries ct).enum from rfl]
    rw [List.map_take]
  have hmem : e.2.1 ∈ ((((citEntries ct).enum.insertionSort topLEIdx).take 3).map
      Prod.snd).map (·.1) ↔ e ∈ ((citEntries ct).enum.insertionSort topLEIdx).take 3 := by
    rw [List.map_map]
    constructor
    · intro h
      obtain ⟨f, hf, hfe⟩ := List.mem_map.mp h
      have hfS : f ∈ (citEntries ct).enum.insertionSort topLEIdx := List.mem_of_mem_take hf
      have hfE : f ∈ (citEntries ct).enum := (List.mem_insertionSort _).mp hfS
      have : f = e := enum_name_inj hndl hfE he hfe
      exact this ▸ hf
    · intro h
      exact List.mem_map.mpr ⟨e, h, rfl⟩
  rw [hsort, hmem]
  have hsorted : ((citEntries ct).enum.insertionSort topLEIdx).Sorted topLEIdx :=
    List.sorted_insertionSort _ _
  have hperm : ((citEntries ct).enum.insertionSort topLEIdx).Perm (citEntries ct).enum :=
    List.perm_insertionSort _ _
  have hanti : ∀ x ∈ (citEntries ct).enum.insertionSort topLEIdx,
      ∀ y ∈ (citEntries ct).enum.insertionSort topLEIdx,
      topLEIdx x y → topLEIdx y x → x = y := by
    intro x hxS y hyS hxy hyx
    have hxE : x ∈ (citEntries ct).enum := (List.mem_insertionSort _).mp hxS
    have hyE : y ∈ (citEntries ct).enum := (List.mem_insertionSort _).mp hyS
    unfold topLEIdx at hxy hyx
    have hcits : x.2.2 = y.2.2 := by
      rcases hxy with h | ⟨h, _⟩
      · rcases hyx with h' | ⟨h', _⟩
        · exact absurd h' (asymm h)
        · exact h'.symm
      · exact h
    have hidx : x.1 = y.1 := by
      rcases hxy with h | ⟨_, h⟩
      · rw [hcits] at h
        exact absurd h (lt_irrefl _)
      · rcases hyx with h' | ⟨_, h'⟩
        · rw [hcits] at h'
          exact absurd h' (lt_irrefl _)
        · exact le_antisymm h h'
    exact enum_fst_inj hxE hyE hidx
  have heS : e ∈ (citEntries ct).enum.insertionSort topLEIdx :=
    (List.mem_insertionSort _).mpr he
  rw [mem_take_sorted_iff topLEIdx _ hsorted hanti e heS 3]
  rw [List.countP_congr (fun y _ => by rw [strictAbove_eq_beats y e])]
  rw [hperm.countP_eq]

/-- C4: theory-table rows are marked `isTopThree` exactly when their
(canonical) theory name is among the top-three names; a name is a top-three
name iff fewer than 3 pool entries have strictly more citations or equal
citations and an earlier declaration position (stable tie-breaking); and a
topic with at most 3 theories has all its names marked. -/
theorem top_three_marking (st : VizState) (psychClusterId : String)
    (sec : List (String × SecondaryCluster)) (ct : List (String × TheoryData))
    (hsec : lookupAssoc st.secondaryClusters (clusterKeyOf psychClusterId) = some sec)
    (hct : lookupAssoc st.theoryPool (clusterKeyOf psychClusterId) = some ct)
    (hnd : (ct.map (·.1)).Nodup) :
    (∀ row ∈ getTheoryTableData st psychClusterId,
      row.isTopThree = decide (row.theory ∈ (getTopTheories ct 3).map (·.1))) ∧
    (∀ e ∈ (citEntries ct).enum,
      (e.2.1 ∈ (getTopTheories ct 3).map (·.1) ↔
        (citEntries ct).enum.countP (fun f => decide (beats f e)) < 3)) ∧
    (ct.length ≤ 3 → ∀ name ∈ ct.map (·.1),
      name ∈ (getTopTheories ct 3).map (·.1)) := by
  refine ⟨?_, fun e he => mem_topNames_iff ct hnd e he, ?_⟩
  · intro row hrow
    rw [getTheoryTableData_eq hsec hct, List.mem_insertionSort] at hrow
    unfold theoryTableRows at hrow
    rw [List.mem_flatMap] at hrow
    obtain ⟨sub, _, hrow⟩ := hrow
    rw [List.mem_filterMap] at hrow
    obtain ⟨thName, _, hmap⟩ := hrow
    cases hres : resolveTheory ct thName with
    | none =>
      rw [hres] at hmap
      cases hmap
    | some r =>
      rw [hres] at hmap
      cases hmap
      rfl
  · intro hlen name hname
    obtain ⟨p, hp, hpe⟩ := List.mem_map.mp hname
    have hce : (name, p.2.citation) ∈ citEntries ct := by
      unfold citEntries
      exact List.mem_map.mpr ⟨p, hp, by rw [hpe]⟩
    obtain ⟨i, hlt, hel⟩ := List.mem_iff_getElem.mp hce
    have hee : (i, (name, p.2.citation)) ∈ (citEntries ct).enum := by
      apply List.mem_enum_iff_getElem?.mpr
      rw [List.getElem?_eq_getElem hlt, hel]
    have hnotself : ¬ beats (i, (name, p.2.citation)) (i, (name, p.2.citation)) := by
      unfold beats
      rintro (h | ⟨_, h⟩) <;> exact lt_irrefl _ h
    have hle : (citEntries ct).enum.countP
        (fun f => decide (beats f (i, (name, p.2.citation)))) ≤
        (citEntries ct).enum.length := List.countP_le_length _
    have hne : (citEntries ct).enum.countP
        (fun f => decide (beats f (i, (name, p.2.citation)))) ≠
        (citEntries ct).enum.length := by
      intro hcontr
      have := (List.countP_eq_length).mp hcontr _ hee
      rw [decide_eq_true_eq] at this
      exact hnotself this
    have hlenE : (citEntries ct).enum.length = ct.length := by
      rw [List.enum_length]
      unfold citEntries
      rw [List.length_map]
    have hcount : (citEntries ct).enum.countP
        (fun f => decide (beats f (i, (name, p.2.citation)))) < 3 := by
      have := lt_of_le_of_ne hle hne
      omega
    exact (mem_topNames_iff ct hnd (i, (name, p.2.citation)) hee).mpr hcount

/-- Witness for C4 at the concrete pool with citation counts
`[10, 10, 5, 1]` in declaration order: exactly the first three names are
selected (the tie at 10 is broken by declaration order), the table rows of
`stEx` are marked accordingly, and the rank characterization holds at the
entry of "Attachment Theory". -/
theorem top_three_marking_witness :
    (getTopTheories ctEx 3).map (·.1) =
      ["Schema Theory", "Attachment Theory", "Cognitive Load Theory"] ∧
    (⟨"Sub One", "Drive Theory", 1, false⟩ : TheoryRow) ∈ getTheoryTableData stEx "Cluster 1" ∧
    ((1, ("Attachment Theory", 10)) ∈ (citEntries ctEx).enum) ∧
    ("Attachment Theory" ∈ (getTopTheories ctEx 3).map (·.1) ↔
      (citEntries ctEx).enum.countP
        (fun f => decide (beats f (1, ("Attachment Theory", 10)))) < 3) := by
  have h := top_three_marking stEx "Cluster 1" secEx ctEx (by decide) (by decide) (by decide)
  exact ⟨by decide, by decide, by decide,
    h.2.1 (1, ("Attachment Theory", 10)) (by decide)⟩

end CitationDashboard
